import Mathlib

/-!
Shallow embedding of the grc cache core: the TTL in-memory store
(`MemoryCache` with `Get`/`Set`/`Close`/`Size`/`cleanupExpired`) and the
hand-rolled wire-protocol client (`SimpleRedisClient` with its command
encoder, reply decoder and connection handshake).  Timestamps and
durations are integers counting nanoseconds, as in Go's `time.Time` /
`time.Duration`.  Byte strings are modelled as `String` / `List Char`
(the source only ever manipulates them as opaque byte sequences).
-/

/-- Errors returned by the cache core.  `cacheMiss` is the sentinel
`ErrCacheMiss = errors.New("cache miss")`; `errorf msg` is an error
created by `fmt.Errorf` (or the standard library) whose rendered message
is `msg`, `%w`-wrapping being message concatenation; `ioError msg` is a
transport error (dial / read / write failure); `runtimePanic msg` marks a
Go runtime panic (which in Go crashes the goroutine instead of being
returned — it is kept as a distinguished outcome of the model). -/
inductive GoError where
  | cacheMiss : GoError
  | errorf (msg : String) : GoError
  | ioError (msg : String) : GoError
  | runtimePanic (msg : String) : GoError
deriving DecidableEq, Repr

/-- Rendered message of an error, as `err.Error()` would produce it. -/
def GoError.render : GoError → String
  | .cacheMiss => "cache miss"
  | .errorf msg => msg
  | .ioError msg => msg
  | .runtimePanic msg => msg

/-- One table entry of the memory cache: `memoryCacheItem` holds the
marshalled bytes and the absolute expiry instant (`time.Time`, here
nanoseconds as `Int`). -/
structure MemoryCacheItem where
  value : String
  expiry : Int
deriving DecidableEq, Repr

/-- State of `MemoryCache`.  The Go field `data map[string]*memoryCacheItem`
is an association list with unique keys; `none` models the nil map that
`Close` installs.  The `stopChan` channel only signals the background
goroutine and carries no data, so it is not part of the state. -/
structure MemoryCache where
  data : Option (List (String × MemoryCacheItem))
  stopped : Bool
deriving DecidableEq, Repr

/-- `NewMemoryCache` allocates an empty table with the store running. -/
def NewMemoryCache : MemoryCache :=
  { data := some [], stopped := false }

/-- Lookup in the association list, mirroring Go map indexing
`item, exists := data[key]`. -/
def alGet (key : String) : List (String × MemoryCacheItem) → Option MemoryCacheItem
  | [] => none
  | (k, v) :: rest => if k = key then some v else alGet key rest

/-- Map assignment `data[key] = item`: replace the entry for `key` if one
exists, otherwise add one; keys stay unique. -/
def alSet (key : String) (item : MemoryCacheItem) :
    List (String × MemoryCacheItem) → List (String × MemoryCacheItem)
  | [] => [(key, item)]
  | (k, v) :: rest =>
    if k = key then (key, item) :: rest else (k, v) :: alSet key item rest

/-- Go's `t.After(u)` on `time.Time`: strictly later than. -/
def timeAfter (t u : Int) : Bool := decide (u < t)

/-- Reading `m.data[key]` in Go: indexing a nil map yields the zero value
with `exists = false`. -/
def MemoryCache.lookup (m : MemoryCache) (key : String) : Option MemoryCacheItem :=
  match m.data with
  | none => none
  | some l => alGet key l

/-- `MemoryCache.Get`: return `ErrCacheMiss` when the key is absent or
`time.Now().After(item.expiry)` holds, else the stored bytes.  `now` is
the value of `time.Now()` during the call. -/
def MemoryCache.Get (m : MemoryCache) (key : String) (now : Int) : Except GoError String :=
  match m.lookup key with
  | none => .error .cacheMiss
  | some item =>
    if timeAfter now item.expiry then .error .cacheMiss
    else .ok item.value

/-- `MemoryCache.Set`: marshal the value (`json.Marshal` is external, so
it is a parameter `marshal`), return its error on failure; then return
`ErrCacheMiss` if the store is stopped, else store the bytes with
`expiry = now + ttl`.  Result is the new state paired with the returned
error (`none` = nil).  A stopped store has a nil table, so the
`getD []` default is never written to from a reachable state (in Go the
write is guarded by the `stopped` check for exactly that reason). -/
def MemoryCache.Set {V : Type} (marshal : V → Except String String)
    (m : MemoryCache) (key : String) (value : V) (ttl now : Int) :
    MemoryCache × Option GoError :=
  match marshal value with
  | .error e => (m, some (.errorf e))
  | .ok data =>
    if m.stopped then (m, some .cacheMiss)
    else
      ({ m with data := some (alSet key ⟨data, now + ttl⟩ (m.data.getD [])) }, none)

/-- `MemoryCache.Close`: on the first call set `stopped`, signal the
sweeper and nil out the table; always return nil. -/
def MemoryCache.Close (m : MemoryCache) : MemoryCache × Option GoError :=
  if m.stopped then (m, none)
  else ({ data := none, stopped := true }, none)

/-- The sweep's deletion loop: drop every entry with `now.After(expiry)`. -/
def sweepList (now : Int) : List (String × MemoryCacheItem) → List (String × MemoryCacheItem)
  | [] => []
  | (k, item) :: rest =>
    if timeAfter now item.expiry then sweepList now rest
    else (k, item) :: sweepList now rest

/-- `MemoryCache.cleanupExpired`: no-op when stopped, otherwise run the
deletion loop over the table at the sweep instant `now`. -/
def MemoryCache.cleanupExpired (m : MemoryCache) (now : Int) : MemoryCache :=
  if m.stopped then m
  else { m with data := (m.data).map (sweepList now) }

/-- `MemoryCache.Size`: `len(m.data)`; the length of a nil map is 0. -/
def MemoryCache.Size (m : MemoryCache) : Nat :=
  match m.data with
  | none => 0
  | some l => l.length

/-- States reachable from `NewMemoryCache` keep the table nil exactly
while stopped; this is the invariant the Go code maintains (`data` is
only set to nil by `Close`, which also sets `stopped`). -/
def MCInv (m : MemoryCache) : Prop := m.stopped = true → m.data = none

/-- A tiny fragment of Go values fed to `encoding/json`, enough to
exhibit both marshalable and unmarshalable inputs. -/
inductive GoValue where
  | intVal (n : Int) : GoValue
  | boolVal (b : Bool) : GoValue
  | chanVal : GoValue
deriving DecidableEq, Repr

/-- Behaviour of `encoding/json.Marshal` on the `GoValue` fragment, per
its documentation: numbers and booleans marshal to their JSON literals,
a channel value fails with an unsupported-type error. -/
def goJsonMarshal : GoValue → Except String String
  | .intVal n => .ok (toString n)
  | .boolVal b => .ok (if b then "true" else "false")
  | .chanVal => .error "json: unsupported type: chan int"

/-! ### Wire protocol client -/

/-- ASCII decimal digit, as accepted by `strconv.Atoi`. -/
def isDigitChar (c : Char) : Bool := 48 ≤ c.toNat && c.toNat ≤ 57

/-- White space as trimmed by `strings.TrimSpace` (the ASCII cases;
protocol replies never contain the exotic Unicode spaces). -/
def isSpaceChar (c : Char) : Bool :=
  c.toNat = 32 || c.toNat = 9 || c.toNat = 10 || c.toNat = 13 ||
  c.toNat = 11 || c.toNat = 12

/-- `strings.TrimSpace`: drop white space from both ends. -/
def trimSpace (l : List Char) : List Char :=
  ((l.dropWhile isSpaceChar).reverse.dropWhile isSpaceChar).reverse

/-- `bufio.Reader.ReadString('\n')`: consume up to and including the
first newline, returning the line and the rest of the stream; `none`
models the call returning an error because the stream ends with no
newline (the decoder then aborts with that error). -/
def readLine : List Char → Option (List Char × List Char)
  | [] => none
  | c :: cs =>
    if c = '\n' then some ([c], cs)
    else
      match readLine cs with
      | none => none
      | some (line, rest) => some (c :: line, rest)

/-- Accumulating decimal parse of a digit run. -/
def digitsVal (acc : Nat) : List Char → Option Nat
  | [] => some acc
  | c :: cs => if isDigitChar c then digitsVal (acc * 10 + (c.toNat - 48)) cs else none

/-- Nonempty all-digit run parse (helper of `atoi`). -/
def atoiNat : List Char → Option Nat
  | [] => none
  | l => digitsVal 0 l

/-- `strconv.Atoi`: an optional sign followed by a nonempty digit run;
anything else is an error (`none`). -/
def atoi (l : List Char) : Option Int :=
  match l with
  | '-' :: rest => (atoiNat rest).map (fun n => -(n : Int))
  | '+' :: rest => (atoiNat rest).map (fun n => (n : Int))
  | _ => (atoiNat l).map (fun n => (n : Int))

/-- One `bufio.Reader.Read` into `make([]byte, length)`, with the whole
remaining reply already available on the stream: it delivers
`min(length, |s|)` bytes and the unwritten tail of the slice keeps its
zero bytes (the decoder ignores the returned count).  `none` models the
read returning `io.EOF` (nothing available while `length > 0`). -/
def goRead (length : Nat) (s : List Char) : Option (List Char × List Char) :=
  if length = 0 then some ([], s)
  else if s.isEmpty then none
  else some ((s.take length) ++
      List.replicate (length - (s.take length).length) (Char.ofNat 0),
    s.drop length)

/-- The decoder's final `reader.ReadString('\n')`, whose results are
discarded: consume through the next newline, or the whole stream. -/
def skipLine (s : List Char) : List Char :=
  match readLine s with
  | some (_, rest) => rest
  | none => []

/-- Reply decoder of `SimpleRedisClient.sendCommand`: read one line,
trim it, and branch on its first byte.  `+` and `:` return the rest of
the trimmed line; `-` returns a protocol error; `$` parses a decimal
length, maps `-1` to `ErrCacheMiss`, reads that many payload bytes and
consumes the trailing CRLF.  The result pairs the decoded string with
the bytes left unconsumed on the connection.  Two Go panics are kept as
distinguished outcomes: `response[0]` on an all-whitespace line (index
out of range) and `make([]byte, n)` for `n < -1` (makeslice). -/
def parseReply (s : List Char) : Except GoError (String × List Char) :=
  match readLine s with
  | none => .error (.ioError "EOF")
  | some (line, rest) =>
    match trimSpace line with
    | [] => .error (.runtimePanic "runtime error: index out of range")
    | c :: tail =>
      if c = '+' then .ok (String.mk tail, rest)
      else if c = '-' then .error (.errorf ("Redis error: " ++ String.mk tail))
      else if c = ':' then .ok (String.mk tail, rest)
      else if c = '$' then
        match atoi tail with
        | none => .error (.errorf "strconv.Atoi: invalid syntax")
        | some len =>
          if len = -1 then .error .cacheMiss
          else if len < 0 then
            .error (.runtimePanic "runtime error: makeslice: len out of range")
          else
            match goRead len.toNat rest with
            | none => .error (.ioError "EOF")
            | some (data, rest2) => .ok (String.mk data, skipLine rest2)
      else .error (.errorf ("unknown response type: " ++ String.mk [c]))

/-- Request encoder of `sendCommand`: `*<n>\r\n` followed by
`$<len>\r\n<token>\r\n` for each command token. -/
def buildCommand (cmdArgs : List String) : String :=
  "*" ++ toString cmdArgs.length ++ "\r\n" ++
    String.join (cmdArgs.map (fun arg =>
      "$" ++ toString arg.length ++ "\r\n" ++ arg ++ "\r\n"))

/-- `int(ttl.Seconds())`: whole seconds of a nanosecond duration,
truncated toward zero.  The Go expression goes through `float64`; for
`|ttl| < 2^53` ns the conversion is exact and rounding the quotient by
`1e9` never crosses a whole-second boundary, so the truncated quotient
below is its exact value. -/
def durationSeconds (ttl : Int) : Int :=
  if 0 ≤ ttl then ((ttl.toNat / 1000000000 : Nat) : Int)
  else -((((-ttl).toNat / 1000000000 : Nat) : Int))

/-- `SimpleRedisClient.Set`: marshal the value; on success, when
`ttl > 0` send a SETEX frame with the key, the whole-second ttl and the
payload, otherwise send a SET frame.  The result is the wire frame that
`sendCommand` writes to the socket — the observable the claims are
about. -/
def SimpleRedisClient.SetFrame {V : Type} (marshal : V → Except String String)
    (key : String) (value : V) (ttl : Int) : Except GoError String :=
  match marshal value with
  | .error e => .error (.errorf e)
  | .ok data =>
    if 0 < ttl then
      .ok (buildCommand ["SETEX", key, toString (durationSeconds ttl), data])
    else
      .ok (buildCommand ["SET", key, data])

/-- The client value built by `NewSimpleRedisClient`. -/
structure SimpleRedisClient where
  addr : String
  password : String
  db : Int
deriving DecidableEq, Repr

/-- `SimpleRedisClient.connect`: dial (a dial failure is returned
unwrapped), then if a password is configured send AUTH and wrap any
failure as `authentication failed: %w`, then if `db ≠ 0` send SELECT
and wrap any failure as `failed to select database: %w`.  The two reply
streams are the server's answers to the two handshake commands. -/
def SimpleRedisClient.connect (password : String) (db : Int)
    (dial : Except String Unit) (authReply selectReply : List Char) :
    Except GoError Unit :=
  match dial with
  | .error e => .error (.ioError e)
  | .ok _ =>
    let afterAuth : Except GoError Unit :=
      if password = "" then .ok ()
      else
        match parseReply authReply with
        | .error err => .error (.errorf ("authentication failed: " ++ err.render))
        | .ok _ => .ok ()
    match afterAuth with
    | .error e => .error e
    | .ok _ =>
      if db = 0 then .ok ()
      else
        match parseReply selectReply with
        | .error err => .error (.errorf ("failed to select database: " ++ err.render))
        | .ok _ => .ok ()

/-- `NewSimpleRedisClient`: run `connect`; a failure is wrapped as
`failed to connect to Redis: %w` and no client is returned. -/
def NewSimpleRedisClient (addr password : String) (db : Int)
    (dial : Except String Unit) (authReply selectReply : List Char) :
    Except String SimpleRedisClient :=
  match SimpleRedisClient.connect password db dial authReply selectReply with
  | .error e => .error ("failed to connect to Redis: " ++ e.render)
  | .ok _ => .ok ⟨addr, password, db⟩

/-- Does the character run `pat` occur at the start of `l`? -/
def startsWithRun : List Char → List Char → Bool
  | [], _ => true
  | _ :: _, [] => false
  | p :: ps, c :: cs => p == c && startsWithRun ps cs

/-- Does the character run `pat` occur anywhere inside `l`?  Used to
state that one rendered error message mentions another. -/
def containsRun (pat : List Char) : List Char → Bool
  | [] => startsWithRun pat []
  | c :: cs => startsWithRun pat (c :: cs) || containsRun pat cs

/-! ### Helper lemmas for the memory store -/

/-- Assignment followed by lookup of the same key finds the new entry. -/
theorem alGet_alSet (key : String) (item : MemoryCacheItem)
    (l : List (String × MemoryCacheItem)) :
    alGet key (alSet key item l) = some item := by
  induction l with
  | nil => simp [alSet, alGet]
  | cons kv rest ih =>
    obtain ⟨k, v⟩ := kv
    by_cases hk : k = key
    · simp [alSet, alGet, hk]
    · simp [alSet, alGet, hk, ih]

/-- The deletion loop of the sweep keeps exactly the entries whose expiry
has not passed at the sweep instant. -/
theorem sweepList_eq_filter (now : Int) (l : List (String × MemoryCacheItem)) :
    sweepList now l = l.filter (fun kv => decide (now ≤ kv.2.expiry)) := by
  induction l with
  | nil => rfl
  | cons kv rest ih =>
    obtain ⟨k, item⟩ := kv
    cases h : timeAfter now item.expiry with
    | true =>
      have h' : item.expiry < now := by
        simpa [timeAfter] using h
      have hf : ¬ (now ≤ item.expiry) := by omega
      simp [sweepList, h, hf, ih]
    | false =>
      have h' : ¬ (item.expiry < now) := by
        simpa [timeAfter] using h
      have hf : now ≤ item.expiry := by omega
      simp [sweepList, h, hf, ih]

/-! ### Claims about the memory store -/

/-- C1 counterexample: an entry stored at time 0 with ttl 100 has expiry
100; reading at `now = 100` the code returns the value with a hit, yet
`now` is not strictly before the expiry, so the claim's "strictly
before" characterisation fails at this input. -/
theorem C1_counterexample :
    MemoryCache.Get (MemoryCache.Set Except.ok NewMemoryCache "k" "v" 100 0).1 "k" 100
      = Except.ok "v" ∧ ¬ ((100 : Int) < 100) :=
  ⟨rfl, by decide⟩

/-- C1 (amended): `Get` returns the miss signal `ErrCacheMiss` exactly
when no entry for the key has `now ≤ expiry` (i.e. every present entry
has its expiry strictly passed), and whenever an entry with
`now ≤ expiry` exists, `Get` returns its stored bytes. -/
theorem C1_get_miss_iff_no_live_entry (m : MemoryCache) (key : String) (now : Int) :
    (MemoryCache.Get m key now = Except.error GoError.cacheMiss ↔
        ∀ item, m.lookup key = some item → item.expiry < now) ∧
      ∀ item, m.lookup key = some item → now ≤ item.expiry →
        MemoryCache.Get m key now = Except.ok item.value := by
  constructor
  · cases h : m.lookup key with
    | none => simp [MemoryCache.Get, h]
    | some item =>
      simp only [MemoryCache.Get, h, timeAfter]
      constructor
      · intro he item' hi
        cases hi
        by_cases hlt : item.expiry < now
        · exact hlt
        · simp [hlt] at he
      · intro hall
        have hlt := hall item rfl
        simp [hlt]
  · intro item hi hle
    have hlt : ¬ (item.expiry < now) := by omega
    simp [MemoryCache.Get, hi, timeAfter, hlt]

/-- C1 witness: on a concrete store the miss-iff-dead equivalence holds. -/
theorem C1_witness :
    (MemoryCache.Get NewMemoryCache "k" 5 = Except.error GoError.cacheMiss ↔
        ∀ item, NewMemoryCache.lookup "k" = some item → item.expiry < 5) ∧
      ∀ item, NewMemoryCache.lookup "k" = some item → 5 ≤ item.expiry →
        MemoryCache.Get NewMemoryCache "k" 5 = Except.ok item.value :=
  C1_get_miss_iff_no_live_entry NewMemoryCache "k" 5

/-- C2: for a serializable value and positive ttl on a running store,
`Set` succeeds and a `Get` performed before the ttl has elapsed returns
the marshalled bytes, which decode back to the value that was set. -/
theorem C2_set_then_get {V : Type} (marshal : V → Except String String)
    (unmarshal : String → Except String V)
    (m : MemoryCache) (key : String) (value : V) (bytes : String)
    (ttl t0 t1 : Int)
    (hm : marshal value = .ok bytes)
    (hrt : unmarshal bytes = .ok value)
    (hopen : m.stopped = false)
    (httl : 0 < ttl)
    (hbefore : t1 < t0 + ttl) :
    (MemoryCache.Set marshal m key value ttl t0).2 = none ∧
      MemoryCache.Get (MemoryCache.Set marshal m key value ttl t0).1 key t1
        = Except.ok bytes ∧
      unmarshal bytes = .ok value := by
  have hset : MemoryCache.Set marshal m key value ttl t0
      = ({ m with data := some (alSet key ⟨bytes, t0 + ttl⟩ (m.data.getD [])) }, none) := by
    simp [MemoryCache.Set, hm, hopen]
  refine ⟨by rw [hset], ?_, hrt⟩
  rw [hset]
  have hlk : MemoryCache.lookup
      { m with data := some (alSet key ⟨bytes, t0 + ttl⟩ (m.data.getD [])) } key
      = some ⟨bytes, t0 + ttl⟩ := by
    simp [MemoryCache.lookup, alGet_alSet]
  have hnot : ¬ (t0 + ttl < t1) := by omega
  simp [MemoryCache.Get, hlk, timeAfter, hnot]

/-- C2 witness: a concrete set-then-get round trip on the empty store. -/
theorem C2_witness :
    (0 : Int) < 100 ∧ (7 : Int) < 0 + 100 ∧
      ((MemoryCache.Set Except.ok NewMemoryCache "k" "v" 100 0).2 = none ∧
        MemoryCache.Get (MemoryCache.Set Except.ok NewMemoryCache "k" "v" 100 0).1 "k" 7
          = Except.ok "v" ∧
        (Except.ok "v" : Except String String) = Except.ok "v") :=
  ⟨by decide, by decide,
    C2_set_then_get Except.ok Except.ok NewMemoryCache "k" "v" "v" 100 0 7
      rfl rfl rfl (by decide) (by decide)⟩

/-- C3 counterexample: on the freshly created (open) store, `Set` with a
value that `json.Marshal` rejects returns that serialization error even
though the store has not been closed, refuting "non-nil error only when
the store has been closed". -/
theorem C3_counterexample :
    NewMemoryCache.stopped = false ∧
    (MemoryCache.Set goJsonMarshal NewMemoryCache "k" GoValue.chanVal 60 0).2
      = some (GoError.errorf "json: unsupported type: chan int") ∧
    (MemoryCache.Set goJsonMarshal NewMemoryCache "k" GoValue.chanVal 60 0).2 ≠ none := by
  refine ⟨rfl, rfl, ?_⟩
  intro h
  simp [MemoryCache.Set, goJsonMarshal] at h

/-- C3 (amended): `Set` returns a non-nil error exactly in two cases —
the value fails to serialize (the marshal error is returned) or the
store has been closed (in which case the error is exactly the miss
sentinel `ErrCacheMiss`); for a serializable value on a running store,
`Set` succeeds. -/
theorem C3_set_error_cases {V : Type} (marshal : V → Except String String)
    (m : MemoryCache) (key : String) (value : V) (ttl now : Int) :
    (∀ e, (MemoryCache.Set marshal m key value ttl now).2 = some e →
        (∃ msg, marshal value = .error msg ∧ e = .errorf msg) ∨
          (m.stopped = true ∧ e = .cacheMiss)) ∧
      ∀ bytes, marshal value = .ok bytes → m.stopped = false →
        (MemoryCache.Set marshal m key value ttl now).2 = none := by
  constructor
  · intro e he
    cases hm : marshal value with
    | error msg =>
      left
      refine ⟨msg, rfl, ?_⟩
      simp [MemoryCache.Set, hm] at he
      exact he.symm
    | ok bytes =>
      right
      cases hs : m.stopped with
      | true =>
        refine ⟨rfl, ?_⟩
        simp [MemoryCache.Set, hm, hs] at he
        exact he.symm
      | false => simp [MemoryCache.Set, hm, hs] at he
  · intro bytes hm hs
    simp [MemoryCache.Set, hm, hs]

/-- C3 witness: the amended statement instantiated on a concrete store. -/
theorem C3_witness :
    (∀ e, (MemoryCache.Set goJsonMarshal NewMemoryCache "k" (GoValue.intVal 5) 60 0).2
          = some e →
        (∃ msg, goJsonMarshal (GoValue.intVal 5) = .error msg ∧ e = .errorf msg) ∨
          (NewMemoryCache.stopped = true ∧ e = .cacheMiss)) ∧
      ∀ bytes, goJsonMarshal (GoValue.intVal 5) = .ok bytes →
        NewMemoryCache.stopped = false →
        (MemoryCache.Set goJsonMarshal NewMemoryCache "k" (GoValue.intVal 5) 60 0).2 = none :=
  C3_set_error_cases goJsonMarshal NewMemoryCache "k" (GoValue.intVal 5) 60 0

/-- C4: `Close` is idempotent and never errors — both calls return nil
and the second call leaves the state exactly as the first left it — and
after `Close` every `Get` returns the miss sentinel. -/
theorem C4_close_idempotent (m : MemoryCache) (hinv : MCInv m) :
    (MemoryCache.Close m).2 = none ∧
      (MemoryCache.Close (MemoryCache.Close m).1).2 = none ∧
      (MemoryCache.Close (MemoryCache.Close m).1).1 = (MemoryCache.Close m).1 ∧
      ∀ key now, MemoryCache.Get (MemoryCache.Close m).1 key now
        = Except.error GoError.cacheMiss := by
  cases hs : m.stopped with
  | true =>
    have hd := hinv hs
    simp [MemoryCache.Close, hs, hd, MemoryCache.Get, MemoryCache.lookup]
  | false =>
    simp [MemoryCache.Close, hs, MemoryCache.Get, MemoryCache.lookup]

/-- C4 witness: closing the freshly created store twice. -/
theorem C4_witness :
    (MemoryCache.Close NewMemoryCache).2 = none ∧
      (MemoryCache.Close (MemoryCache.Close NewMemoryCache).1).2 = none ∧
      (MemoryCache.Close (MemoryCache.Close NewMemoryCache).1).1
        = (MemoryCache.Close NewMemoryCache).1 ∧
      ∀ key now, MemoryCache.Get (MemoryCache.Close NewMemoryCache).1 key now
        = Except.error GoError.cacheMiss :=
  C4_close_idempotent NewMemoryCache (fun h => by simp [NewMemoryCache] at h)

/-- C5: one run of the sweep on a running store keeps exactly the
entries whose expiry has not passed at sweep time (the table becomes the
filter of the old table by liveness), and `Size` right after the sweep
equals the number of keys with unexpired entries. -/
theorem C5_sweep_removes_exactly_expired (m : MemoryCache) (now : Int)
    (l : List (String × MemoryCacheItem))
    (hopen : m.stopped = false) (hdata : m.data = some l) :
    (MemoryCache.cleanupExpired m now).data
        = some (l.filter (fun kv => decide (now ≤ kv.2.expiry))) ∧
      MemoryCache.Size (MemoryCache.cleanupExpired m now)
        = (l.filter (fun kv => decide (now ≤ kv.2.expiry))).length := by
  have h : (MemoryCache.cleanupExpired m now).data
      = some (l.filter (fun kv => decide (now ≤ kv.2.expiry))) := by
    simp [MemoryCache.cleanupExpired, hopen, hdata, sweepList_eq_filter]
  refine ⟨h, ?_⟩
  simp [MemoryCache.Size, h]

/-- C5 witness: sweeping a concrete two-entry table at time 10 drops the
entry expired at 3 and keeps the one expiring at 20. -/
theorem C5_witness :
    (MemoryCache.cleanupExpired ⟨some [("a", ⟨"x", 3⟩), ("b", ⟨"y", 20⟩)], false⟩ 10).data
        = some (([("a", ⟨"x", 3⟩), ("b", ⟨"y", 20⟩)] :
              List (String × MemoryCacheItem)).filter
            (fun kv => decide ((10 : Int) ≤ kv.2.expiry))) ∧
      MemoryCache.Size
          (MemoryCache.cleanupExpired ⟨some [("a", ⟨"x", 3⟩), ("b", ⟨"y", 20⟩)], false⟩ 10)
        = (([("a", ⟨"x", 3⟩), ("b", ⟨"y", 20⟩)] :
              List (String × MemoryCacheItem)).filter
            (fun kv => decide ((10 : Int) ≤ kv.2.expiry))).length :=
  C5_sweep_removes_exactly_expired ⟨some [("a", ⟨"x", 3⟩), ("b", ⟨"y", 20⟩)], false⟩ 10
    [("a", ⟨"x", 3⟩), ("b", ⟨"y", 20⟩)] rfl rfl

/-- C10: after `Close`, `Size` evaluates (totally, hence without panic)
to 0 — the discarded nil table counts as empty. -/
theorem C10_size_zero_after_close (m : MemoryCache) (hinv : MCInv m) :
    MemoryCache.Size (MemoryCache.Close m).1 = 0 := by
  cases hs : m.stopped with
  | true => simp [MemoryCache.Close, hs, hinv hs, MemoryCache.Size]
  | false => simp [MemoryCache.Close, hs, MemoryCache.Size]

/-- C10 witness: a store holding one entry has size 0 once closed. -/
theorem C10_witness :
    MemoryCache.Size (MemoryCache.Close ⟨some [("a", ⟨"x", 3⟩)], false⟩).1 = 0 :=
  C10_size_zero_after_close ⟨some [("a", ⟨"x", 3⟩)], false⟩ (fun h => by simp at h)

/-! ### Helper lemmas for the wire client -/

/-- A run occurs at the start of itself followed by anything. -/
theorem startsWithRun_append (p tail : List Char) :
    startsWithRun p (p ++ tail) = true := by
  induction p with
  | nil => rfl
  | cons c cs ih => simp [startsWithRun, ih]

/-- A run occurs inside itself followed by anything. -/
theorem containsRun_self (p tail : List Char) :
    containsRun p (p ++ tail) = true := by
  cases p with
  | nil =>
    cases tail with
    | nil => rfl
    | cons c cs => simp [containsRun, startsWithRun]
  | cons x xs =>
    have h := startsWithRun_append (x :: xs) tail
    rw [List.cons_append] at h
    rw [List.cons_append, containsRun, h]
    simp

/-- Occurrence is preserved by extending the text on the left. -/
theorem containsRun_append_left (p a b : List Char) (h : containsRun p b = true) :
    containsRun p (a ++ b) = true := by
  induction a with
  | nil => simpa using h
  | cons c cs ih =>
    rw [List.cons_append, containsRun, ih]
    simp

/-- `ReadString('\n')` on a stream whose first newline closes `pre`. -/
theorem readLine_append (pre post : List Char) (h : '\n' ∉ pre) :
    readLine (pre ++ '\n' :: post) = some (pre ++ ['\n'], post) := by
  induction pre with
  | nil => simp [readLine]
  | cons c cs ih =>
    have hc : ¬ (c = '\n') := fun he => h (by simp [he])
    have hcs : '\n' ∉ cs := fun hm => h (List.mem_cons_of_mem _ hm)
    simp [readLine, hc, ih hcs]

/-- The last element of a list of non-space characters is not a space. -/
theorem allNonSpace_getLast (l : List Char) (h : ∀ c ∈ l, isSpaceChar c = false) :
    ∀ c, l.getLast? = some c → isSpaceChar c = false := by
  induction l with
  | nil => intro c hc; simp at hc
  | cons a rest ih =>
    intro c hc
    cases rest with
    | nil =>
      simp [List.getLast?] at hc
      exact hc ▸ h a (List.mem_cons_self a [])
    | cons b bs =>
      rw [List.getLast?_cons_cons] at hc
      exact ih (fun x hx => h x (List.mem_cons_of_mem _ hx)) c hc

/-- `TrimSpace` on a CRLF-terminated line whose body neither starts nor
ends with white space strips exactly the terminator. -/
theorem trimSpace_body (body : List Char)
    (hhead : ∀ c, body.head? = some c → isSpaceChar c = false)
    (hlast : ∀ c, body.getLast? = some c → isSpaceChar c = false) :
    trimSpace (body ++ ['\r', '\n']) = body := by
  cases body with
  | nil => rfl
  | cons b bs =>
    have hb : isSpaceChar b = false := hhead b rfl
    unfold trimSpace
    rw [List.cons_append, List.dropWhile_cons]
    simp only [hb, Bool.false_eq_true, if_false]
    have h1 : (b :: (bs ++ ['\r', '\n'])).reverse
        = '\n' :: '\r' :: (b :: bs).reverse := by simp
    rw [h1]
    have hn : isSpaceChar '\n' = true := by decide
    have hr : isSpaceChar '\r' = true := by decide
    rw [List.dropWhile_cons, List.dropWhile_cons]
    simp only [hn, hr, if_true]
    cases hrev : (b :: bs).reverse with
    | nil => exact absurd hrev (by simp)
    | cons x xs =>
      have hx : isSpaceChar x = false := by
        refine hlast x ?_
        rw [← List.head?_reverse, hrev]
        rfl
      rw [List.dropWhile_cons]
      simp only [hx, Bool.false_eq_true, if_false]
      rw [← hrev, List.reverse_reverse]

/-- Decimal digits are not white space. -/
theorem digit_not_space (c : Char) (h : isDigitChar c = true) :
    isSpaceChar c = false := by
  simp [isDigitChar] at h
  simp [isSpaceChar]
  omega

/-- The single `Read` delivers exactly the declared bytes when the
stream holds them (whatever bytes they are, newlines included). -/
theorem goRead_exact (payload tail : List Char) :
    goRead payload.length (payload ++ tail) = some (payload, tail) := by
  cases payload with
  | nil => rfl
  | cons p ps =>
    unfold goRead
    rw [if_neg (by simp), if_neg (by simp), List.take_left, List.drop_left]
    simp

/-- Consuming the trailing CRLF leaves the rest of the connection. -/
theorem skipLine_crlf (rest : List Char) : skipLine ('\r' :: '\n' :: rest) = rest := by
  simp [skipLine, readLine]

/-! ### Claims about the wire client -/

/-- C6: with a serializable value, `Set` sends a three-element SET frame
when `ttl ≤ 0` and a four-element SETEX frame when `ttl > 0`, whose
integer TTL token is the whole-second truncation toward zero of `ttl`
(characterised by `secs * 10⁹ ≤ ttl < secs * 10⁹ + 10⁹` for positive
ttl), so that sub-second positive TTLs encode as `0` seconds.  The
`ttl < 2⁵³` bound keeps the integer model of `int(ttl.Seconds())` exact
(see `durationSeconds`). -/
theorem C6_set_frame_shape {V : Type} (marshal : V → Except String String)
    (key : String) (value : V) (data : String) (ttl : Int)
    (hm : marshal value = .ok data) (hrange : ttl < 2 ^ 53) :
    (ttl ≤ 0 →
        SimpleRedisClient.SetFrame marshal key value ttl
            = .ok (buildCommand ["SET", key, data]) ∧
          (["SET", key, data] : List String).length = 3) ∧
      (0 < ttl →
        ∃ secs : Int,
          SimpleRedisClient.SetFrame marshal key value ttl
              = .ok (buildCommand ["SETEX", key, toString secs, data]) ∧
            (["SETEX", key, toString secs, data] : List String).length = 4 ∧
            0 ≤ secs ∧ secs * 1000000000 ≤ ttl ∧
            ttl < secs * 1000000000 + 1000000000 ∧
            (ttl < 1000000000 → secs = 0)) := by
  constructor
  · intro hle
    have hneg : ¬ (0 < ttl) := by omega
    refine ⟨?_, rfl⟩
    simp [SimpleRedisClient.SetFrame, hm, hneg]
  · intro hpos
    refine ⟨durationSeconds ttl, ?_, rfl, ?_⟩
    · simp [SimpleRedisClient.SetFrame, hm, hpos]
    · have h0 : 0 ≤ ttl := le_of_lt hpos
      have hsec : durationSeconds ttl = ((ttl.toNat / 1000000000 : Nat) : Int) := by
        simp [durationSeconds, h0]
      have hdm := Nat.div_add_mod ttl.toNat 1000000000
      have hmod : ttl.toNat % 1000000000 < 1000000000 :=
        Nat.mod_lt _ (by decide)
      rw [hsec]
      omega

/-- C6 witness: a 1.5-second ttl yields a SETEX frame with the token 1. -/
theorem C6_witness :
    ((1500000000 : Int) ≤ 0 →
        SimpleRedisClient.SetFrame Except.ok "a" "42" 1500000000
            = .ok (buildCommand ["SET", "a", "42"]) ∧
          (["SET", "a", "42"] : List String).length = 3) ∧
      ((0 : Int) < 1500000000 →
        ∃ secs : Int,
          SimpleRedisClient.SetFrame Except.ok "a" "42" 1500000000
              = .ok (buildCommand ["SETEX", "a", toString secs, "42"]) ∧
            (["SETEX", "a", toString secs, "42"] : List String).length = 4 ∧
            0 ≤ secs ∧ secs * 1000000000 ≤ 1500000000 ∧
            (1500000000 : Int) < secs * 1000000000 + 1000000000 ∧
            ((1500000000 : Int) < 1000000000 → secs = 0)) :=
  C6_set_frame_shape Except.ok "a" "42" "42" 1500000000 rfl (by decide)

/-- C7: on a bulk reply whose length token parses as the decimal `len`,
the decoder returns exactly the next `len` payload bytes verbatim (the
payload may contain CR and LF) and consumes the trailing CRLF, leaving
precisely the bytes after it on the connection; a length token of `-1`
yields the miss sentinel `ErrCacheMiss`. -/
theorem C7_bulk_reply (digits payload rest : List Char) (len : Nat)
    (hne : digits ≠ [])
    (hdig : ∀ c ∈ digits, isDigitChar c = true)
    (hval : atoi digits = some (len : Int))
    (hlen : payload.length = len) :
    parseReply ('$' :: digits ++ ['\r', '\n'] ++ payload ++ ['\r', '\n'] ++ rest)
        = .ok (String.mk payload, rest) ∧
      parseReply ('$' :: '-' :: '1' :: '\r' :: '\n' :: rest)
        = .error GoError.cacheMiss := by
  constructor
  · have hstream : '$' :: digits ++ ['\r', '\n'] ++ payload ++ ['\r', '\n'] ++ rest
        = ('$' :: digits ++ ['\r']) ++ '\n' :: (payload ++ '\r' :: '\n' :: rest) := by
      simp
    have hnl : '\n' ∉ '$' :: digits ++ ['\r'] := by
      intro hmem
      rcases List.mem_cons.mp hmem with h | h
      · exact absurd h (by decide)
      · rcases List.mem_append.mp h with h | h
        · have := hdig _ h
          exact absurd this (by decide)
        · simp at h
    have hrl := readLine_append ('$' :: digits ++ ['\r']) (payload ++ '\r' :: '\n' :: rest) hnl
    have hlineshape : ('$' :: digits ++ ['\r']) ++ ['\n']
        = ('$' :: digits) ++ ['\r', '\n'] := by simp
    have htrim : trimSpace (('$' :: digits ++ ['\r']) ++ ['\n']) = '$' :: digits := by
      rw [hlineshape]
      refine trimSpace_body ('$' :: digits) ?_ ?_
      · intro c hc
        simp at hc
        subst hc
        decide
      · refine allNonSpace_getLast _ ?_
        intro c hc
        rcases List.mem_cons.mp hc with h | h
        · rw [h]; decide
        · exact digit_not_space c (hdig c h)
    have hi1 : ¬ (('$' : Char) = '+') := by decide
    have hi2 : ¬ (('$' : Char) = '-') := by decide
    have hi3 : ¬ (('$' : Char) = ':') := by decide
    have hm1 : ¬ ((len : Int) = -1) := by omega
    have hm2 : ¬ ((len : Int) < 0) := by omega
    have hread : goRead ((len : Int)).toNat (payload ++ '\r' :: '\n' :: rest)
        = some (payload, '\r' :: '\n' :: rest) := by
      have h3 : ((len : Int)).toNat = len := by omega
      rw [h3, ← hlen]
      exact goRead_exact payload ('\r' :: '\n' :: rest)
    rw [hstream]
    rw [parseReply, hrl]
    simp only [htrim]
    rw [if_neg hi1, if_neg hi2, if_neg hi3, if_pos trivial]
    simp only [hval]
    rw [if_neg hm1, if_neg hm2]
    simp only [hread, skipLine_crlf]
  · rfl

/-- C7 witness: a 6-byte payload with an embedded CRLF comes back
verbatim and the connection is left positioned after the terminator. -/
theorem C7_witness :
    parseReply ('$' :: ['6'] ++ ['\r', '\n'] ++ ['a', 'b', '\r', '\n', 'c', 'd']
          ++ ['\r', '\n'] ++ ['X'])
        = .ok (String.mk ['a', 'b', '\r', '\n', 'c', 'd'], ['X']) ∧
      parseReply ('$' :: '-' :: '1' :: '\r' :: '\n' :: ['X'])
        = .error GoError.cacheMiss :=
  C7_bulk_reply ['6'] ['a', 'b', '\r', '\n', 'c', 'd'] ['X'] 6
    (by decide) (by decide) (by decide) (by decide)

/-- C8 counterexample: the reply line `" +OK\r\n"` has the leading byte
`' '`, which is none of `+`, `-`, `:`, `$`, yet the decoder trims the
line first and returns success, not a framing error. -/
theorem C8_counterexample :
    ((' ' : Char) ≠ '+' ∧ (' ' : Char) ≠ '-' ∧ (' ' : Char) ≠ ':'
        ∧ (' ' : Char) ≠ '$') ∧
      parseReply (' ' :: '+' :: 'O' :: 'K' :: '\r' :: '\n' :: [])
        = .ok ("OK", []) :=
  ⟨by decide, rfl⟩

/-- C8 (amended): the decoder branches on the first byte of the reply
line after white-space trimming; whenever that trimmed line is nonempty
and its leading byte is none of `+`, `-`, `:`, `$`, the call fails with
the unknown-response-type framing error — never a success. -/
theorem C8_unknown_type_error (s line lrest tail : List Char) (c : Char)
    (hline : readLine s = some (line, lrest))
    (htrim : trimSpace line = c :: tail)
    (h1 : c ≠ '+') (h2 : c ≠ '-') (h3 : c ≠ ':') (h4 : c ≠ '$') :
    parseReply s = .error (.errorf ("unknown response type: " ++ String.mk [c])) := by
  rw [parseReply, hline]
  simp only [htrim]
  rw [if_neg h1, if_neg h2, if_neg h3, if_neg h4]

/-- C8 witness: an `@`-tagged reply line is rejected with the framing
error. -/
theorem C8_witness :
    parseReply ['@', 'x', '\r', '\n']
      = .error (.errorf ("unknown response type: " ++ String.mk ['@'])) :=
  C8_unknown_type_error ['@', 'x', '\r', '\n'] ['@', 'x', '\r', '\n'] [] ['x'] '@'
    rfl rfl (by decide) (by decide) (by decide) (by decide)

/-- C9: when the dial succeeds, a password is configured and the peer
answers AUTH with an error reply carrying `msg`, construction fails (no
client value), with the error message
`failed to connect to Redis: authentication failed: Redis error: <msg>`:
it mentions the `authentication failed` marker and the peer's text,
while a dial failure yields `failed to connect to Redis: <dial error>`,
so any dial error not itself containing the marker renders differently —
the two failure kinds stay distinguishable.  (`msg` is newline-free and
does not end in white space, as protocol error lines are.) -/
theorem C9_auth_rejected (addr password msg : String) (db : Int)
    (rest selectReply : List Char)
    (hpw : password ≠ "")
    (hnl : '\n' ∉ msg.data)
    (hlast : ∀ c, msg.data.getLast? = some c → isSpaceChar c = false) :
    NewSimpleRedisClient addr password db (.ok ())
        ('-' :: msg.data ++ ['\r', '\n'] ++ rest) selectReply
      = .error ("failed to connect to Redis: "
          ++ ("authentication failed: " ++ ("Redis error: " ++ msg))) ∧
    containsRun "authentication failed".data
        ("authentication failed: " ++ ("Redis error: " ++ msg)).data = true ∧
    containsRun msg.data
        ("authentication failed: " ++ ("Redis error: " ++ msg)).data = true ∧
    (∀ e : String,
      NewSimpleRedisClient addr password db (.error e)
          ('-' :: msg.data ++ ['\r', '\n'] ++ rest) selectReply
        = .error ("failed to connect to Redis: " ++ e)) ∧
    (∀ e : String, containsRun "authentication failed".data e.data = false →
      ("failed to connect to Redis: " ++ e : String)
        ≠ "failed to connect to Redis: "
          ++ ("authentication failed: " ++ ("Redis error: " ++ msg))) := by
  have hstream : '-' :: msg.data ++ ['\r', '\n'] ++ rest
      = ('-' :: msg.data ++ ['\r']) ++ '\n' :: rest := by simp
  have hnlpre : '\n' ∉ '-' :: msg.data ++ ['\r'] := by
    intro hmem
    rcases List.mem_cons.mp hmem with h | h
    · exact absurd h (by decide)
    · rcases List.mem_append.mp h with h | h
      · exact hnl h
      · simp at h
  have hrl := readLine_append ('-' :: msg.data ++ ['\r']) rest hnlpre
  have hlineshape : ('-' :: msg.data ++ ['\r']) ++ ['\n']
      = ('-' :: msg.data) ++ ['\r', '\n'] := by simp
  have htrim : trimSpace (('-' :: msg.data ++ ['\r']) ++ ['\n']) = '-' :: msg.data := by
    rw [hlineshape]
    refine trimSpace_body _ ?_ ?_
    · intro c hc
      simp at hc
      subst hc
      decide
    · intro c hc
      cases hmsg : msg.data with
      | nil =>
        rw [hmsg] at hc
        simp [List.getLast?] at hc
        subst hc
        decide
      | cons a as =>
        rw [hmsg, List.getLast?_cons_cons] at hc
        refine hlast c ?_
        rw [hmsg]
        exact hc
  have hparse : parseReply ('-' :: msg.data ++ ['\r', '\n'] ++ rest)
      = .error (.errorf ("Redis error: " ++ msg)) := by
    rw [hstream, parseReply, hrl]
    simp only [htrim]
    rw [if_neg (show ¬ (('-' : Char) = '+') by decide), if_pos trivial]
  have hmark : containsRun "authentication failed".data
      ("authentication failed: " ++ ("Redis error: " ++ msg)).data = true := by
    have h0 : ("authentication failed: " : String) = "authentication failed" ++ ": " := rfl
    rw [h0, String.append_assoc, String.data_append]
    exact containsRun_self _ _
  have hmsgc : containsRun msg.data
      ("authentication failed: " ++ ("Redis error: " ++ msg)).data = true := by
    have h0 : ("authentication failed: " ++ ("Redis error: " ++ msg)).data
        = ("authentication failed: " ++ "Redis error: ").data ++ msg.data := by
      simp [String.data_append]
    rw [h0]
    refine containsRun_append_left _ _ _ ?_
    have h1 := containsRun_self msg.data []
    simpa using h1
  refine ⟨?_, hmark, hmsgc, ?_, ?_⟩
  · have hparse' : parseReply ('-' :: (msg.data ++ '\r' :: '\n' :: rest))
        = .error (.errorf ("Redis error: " ++ msg)) := by
      simpa using hparse
    simp [NewSimpleRedisClient, SimpleRedisClient.connect, hpw, hparse', GoError.render]
  · intro e
    simp [NewSimpleRedisClient, SimpleRedisClient.connect, GoError.render]
  · intro e hmiss heq
    have hdata := congrArg String.data heq
    rw [String.data_append, String.data_append] at hdata
    have he : e.data = ("authentication failed: " ++ ("Redis error: " ++ msg)).data :=
      List.append_cancel_left hdata
    rw [he, hmark] at hmiss
    exact absurd hmiss (by decide)

/-- C9 witness: the peer rejects the credential with
`ERR invalid password`; construction fails with the authentication
error, distinguishable from any dial failure. -/
theorem C9_witness :
    NewSimpleRedisClient "localhost:6379" "pw" 0 (.ok ())
        ('-' :: "ERR invalid password".data ++ ['\r', '\n'] ++ []) []
      = .error ("failed to connect to Redis: "
          ++ ("authentication failed: " ++ ("Redis error: " ++ "ERR invalid password"))) ∧
    containsRun "authentication failed".data
        ("authentication failed: "
          ++ ("Redis error: " ++ "ERR invalid password")).data = true ∧
    containsRun "ERR invalid password".data
        ("authentication failed: "
          ++ ("Redis error: " ++ "ERR invalid password")).data = true ∧
    (∀ e : String,
      NewSimpleRedisClient "localhost:6379" "pw" 0 (.error e)
          ('-' :: "ERR invalid password".data ++ ['\r', '\n'] ++ []) []
        = .error ("failed to connect to Redis: " ++ e)) ∧
    (∀ e : String, containsRun "authentication failed".data e.data = false →
      ("failed to connect to Redis: " ++ e : String)
        ≠ "failed to connect to Redis: "
          ++ ("authentication failed: " ++ ("Redis error: " ++ "ERR invalid password"))) :=
  C9_auth_rejected "localhost:6379" "pw" "ERR invalid password" 0 [] []
    (by decide) (by decide)
    (fun c hc => by
      have h : ("ERR invalid password".data.getLast?) = some 'd' := rfl
      rw [h] at hc
      injection hc with h1
      rw [← h1]
      decide)
